import Mathlib

/-!
# Verification of the libuv event-loop core (heap and Linux poll backend)

Shallow embedding of the intrusive binary min-heap (`src/unnamed/part_001`,
the `heap-inl.h` header) and of the watcher reconciliation / epoll wait loop
of `uv__io_poll` (`src/src/unix/linux-core.c`), together with theorems that
settle the specification claims about them.

## Heap model

A C `struct heap_node` is identified by its address; we model addresses as
natural numbers (`id`), assumed pairwise distinct inside one heap, and the
reachable pointer structure as a binary tree of ids.  `heap_node_swap` in
the C exchanges the *links* of a parent and one of its children; on the
reachable tree this is exactly swapping the labels of the two positions
while every subtree stays in place, which is how the sift loops are
embedded below.  The comparator `heap_compare_fn` becomes `lt : Nat → Nat
→ Bool` on ids.
-/

set_option autoImplicit false

namespace Libuv

/-- The reachable tree of `struct heap_node` links: `nil` is the NULL
pointer, `node id l r` a node at address `id` with left/right children. -/
inductive HTree where
  | nil : HTree
  | node (id : Nat) (l : HTree) (r : HTree) : HTree
deriving DecidableEq, Repr

/-- `struct heap`: root pointer `min` and element count `nelts`. -/
structure Heap where
  min : HTree
  nelts : Nat
deriving DecidableEq, Repr

/-- `heap_init`: `min = NULL`, `nelts = 0`. -/
def heap_init : Heap := ⟨HTree.nil, 0⟩

/-- Address of the node a (non-NULL) subtree root; 0 for NULL. -/
def rootId : HTree → Nat
  | HTree.nil => 0
  | HTree.node v _ _ => v

/-- `heap_min`: the root node, or none when the heap is empty. -/
def heap_min (h : Heap) : Option Nat :=
  match h.min with
  | HTree.nil => none
  | HTree.node v _ _ => some v

/-- Replace the label at the root of a subtree, keeping its shape. -/
def setRoot (v : Nat) : HTree → HTree
  | HTree.nil => HTree.nil
  | HTree.node _ l r => HTree.node v l r

/-- Follow a left/right path (`false` = left, `true` = right) down the tree,
as the traversal loops of `heap_insert`/`heap_remove` do. -/
def subtreeAt : HTree → List Bool → HTree
  | t, [] => t
  | HTree.nil, _ :: _ => HTree.nil
  | HTree.node _ l r, b :: bs => subtreeAt (if b then r else l) bs

/-- The node id found at the end of a path, if a node is there. -/
def nodeAt (t : HTree) (p : List Bool) : Option Nat :=
  match subtreeAt t p with
  | HTree.nil => none
  | HTree.node v _ _ => some v

/-- Whether a node exists at the given path. -/
def hasAt (t : HTree) (p : List Bool) : Bool :=
  (nodeAt t p).isSome

/-- The path accumulator loop of `heap_insert`/`heap_remove`:
`for (k = 0; n >= 2; k += 1, n /= 2) path = (path << 1) | (n & 1);`. -/
def heapPathAux (path k n : Nat) : Nat × Nat :=
  if h : 2 ≤ n then heapPathAux (2 * path + n % 2) (k + 1) (n / 2) else (path, k)
termination_by n
decreasing_by omega

/-- `(path, k)` computed by the C loops starting from `path = 0`, `k = 0`. -/
def heapPath (n : Nat) : Nat × Nat := heapPathAux 0 0 n

/-- Read the direction bits the C traversal consumes: bit `0` of `path`
first (`path & (1 << 0)`), then bit `1`, …, `k` bits in all. -/
def pathList (path : Nat) : Nat → List Bool
  | 0 => []
  | k + 1 => decide (path % 2 = 1) :: pathList (path / 2) k

/-- Link a new node at the end of a path (the `*child = newnode` step of
`heap_insert`); positions off the tree yield `nil` (unreachable for the
complete trees the code maintains). -/
def insertAt : HTree → List Bool → Nat → HTree
  | _, [], x => HTree.node x HTree.nil HTree.nil
  | HTree.nil, _ :: _, _ => HTree.nil
  | HTree.node v l r, b :: bs, x =>
      if b then HTree.node v l (insertAt r bs x) else HTree.node v (insertAt l bs x) r

/-- The sift-up loop of `heap_insert`:
`while (newnode->parent != NULL && less_than(newnode, newnode->parent))
heap_node_swap(heap, newnode->parent, newnode);`.
`x` sits at the end of `p`; the returned Bool says whether `x` has bubbled
to the root of this subtree with the loop still running. -/
def siftUp (lt : Nat → Nat → Bool) (x : Nat) : HTree → List Bool → HTree × Bool
  | t, [] => (t, true)
  | HTree.nil, _ :: _ => (HTree.nil, false)
  | HTree.node v l r, b :: bs =>
      if b then
        match siftUp lt x r bs with
        | (r2, true) =>
            if lt x v then (HTree.node x l (setRoot v r2), true)
            else (HTree.node v l r2, false)
        | (r2, false) => (HTree.node v l r2, false)
      else
        match siftUp lt x l bs with
        | (l2, true) =>
            if lt x v then (HTree.node x (setRoot v l2) r, true)
            else (HTree.node v l2 r, false)
        | (l2, false) => (HTree.node v l2 r, false)

/-- `heap_insert`: compute the path from `1 + nelts`, link the new node
there, bump `nelts`, and sift up. -/
def heap_insert (lt : Nat → Nat → Bool) (x : Nat) (h : Heap) : Heap :=
  let pk := heapPath (1 + h.nelts)
  let pl := pathList pk.1 pk.2
  let t := insertAt h.min pl x
  { min := (siftUp lt x t pl).1, nelts := h.nelts + 1 }

/-- The sift-down loop of `heap_remove`, transcribed verbatim: the node
being sifted carries id `c` and currently occupies the root position of the
argument subtree (whose stored root label is ignored):
`smallest = child;
if (child->left != NULL && less_than(smallest, child)) smallest = child->left;
if (child->right != NULL && less_than(smallest, child)) smallest = child->right;
if (smallest == child) break; heap_node_swap(heap, child, smallest);`.
Note the C compares `smallest` against `child` itself, not against the
children, so with an irreflexive comparator the loop never swaps. -/
def siftDown (lt : Nat → Nat → Bool) (c : Nat) : HTree → HTree
  | HTree.nil => HTree.nil
  | HTree.node _ l r =>
      let s1 := if l ≠ HTree.nil && lt c c then rootId l else c
      let s2 := if r ≠ HTree.nil && lt s1 c then rootId r else s1
      if s2 = c then HTree.node c l r
      else if s2 = rootId l then HTree.node s2 (siftDown lt c l) r
      else HTree.node s2 l (siftDown lt c r)

/-- The splice of `heap_remove`: the unlinked last node `c` takes the tree
position of the removed node `x` (links copied over, parent/child pointers
redirected), after which the sift-down loop runs at that position. -/
def spliceAndSift (lt : Nat → Nat → Bool) (x c : Nat) : HTree → HTree
  | HTree.nil => HTree.nil
  | HTree.node v l r =>
      if v = x then siftDown lt c (HTree.node v l r)
      else HTree.node v (spliceAndSift lt x c l) (spliceAndSift lt x c r)

/-- Drop the node at the end of a path (the `*max = NULL` unlink step). -/
def removeAt : HTree → List Bool → HTree
  | _, [] => HTree.nil
  | HTree.nil, _ :: _ => HTree.nil
  | HTree.node v l r, b :: bs =>
      if b then HTree.node v l (removeAt r bs) else HTree.node v (removeAt l bs) r

/-- `heap_remove`: return at once if `nelts == 0`; locate and unlink the
last node of the bottom row via the binary expansion of `nelts`; if it is
the removed node we are done, otherwise splice it into the removed node's
position and sift down. -/
def heap_remove (lt : Nat → Nat → Bool) (x : Nat) (h : Heap) : Heap :=
  if h.nelts = 0 then h
  else
    let pk := heapPath h.nelts
    let pl := pathList pk.1 pk.2
    let c := rootId (subtreeAt h.min pl)
    let t1 := removeAt h.min pl
    if c = x then { min := t1, nelts := h.nelts - 1 }
    else { min := spliceAndSift lt x c t1, nelts := h.nelts - 1 }

/-- `heap_dequeue`: `heap_remove(heap, heap->min, less_than)`. -/
def heap_dequeue (lt : Nat → Nat → Bool) (h : Heap) : Heap :=
  heap_remove lt (rootId h.min) h

/-- `b` is `nil`, or its root does not order strictly below `v`. -/
def rootLe (lt : Nat → Nat → Bool) (v : Nat) : HTree → Bool
  | HTree.nil => true
  | HTree.node w _ _ => !lt w v

/-- The min-heap ordering property: every parent orders no worse than each
of its children (hence, for a transitive comparator, the root is ≤ every
node). -/
def heapOrdered (lt : Nat → Nat → Bool) : HTree → Bool
  | HTree.nil => true
  | HTree.node v l r =>
      rootLe lt v l && rootLe lt v r && heapOrdered lt l && heapOrdered lt r

/-- A node id occurs somewhere in the tree. -/
def memTree (x : Nat) : HTree → Bool
  | HTree.nil => false
  | HTree.node v l r => x = v || memTree x l || memTree x r


/-- Modelled from the spec (§4.1): the path to array-index `m` of a binary
heap, read as "the binary expansion of `m` from the most-significant bit
down, excluding the leading 1", `false` = left, `true` = right.  This is
the spec-side description of the insertion path, to be compared with the
`heapPath`/`pathList` computation taken from the source. -/
def idxPath (m : Nat) : List Bool :=
  if h : 2 ≤ m then idxPath (m / 2) ++ [decide (m % 2 = 1)] else []
termination_by m
decreasing_by omega


/-- The complete-binary-tree invariant: the occupied positions of the tree
are exactly the paths of array indices `1..n`. -/
def completeN (t : HTree) (n : Nat) : Prop :=
  ∀ m : Nat, 1 ≤ m → (hasAt t (idxPath m) = true ↔ m ≤ n)

/-!
## Linux poll backend model (`uv__io_poll` in `src/src/unix/linux-core.c`)

The watcher fields (`fd`, `events`, `levents`, `revents`) are C `unsigned
int`; they are modelled as `Nat`, with the 32-bit complement written out
explicitly where the C uses `~`.  Kernel behaviour is an oracle: the
errno class returned by the i-th `epoll_ctl` call during one watcher's
reconciliation is `ks i`, and the outcome of each `epoll_wait` call is one
`WaitStep`.  `abort()` becomes a recorded flag / exit value, and `assert`
is a no-op (NDEBUG semantics).  The cached clock `uv__update_time` /
`uv__hrtime` (defined outside src/) is modelled by a non-negative
millisecond advance `dt` per wait syscall, per the spec's "nanosecond
resolution non-decreasing counter" clamped to the loop's ms cache.
-/

/-- Modelled from the spec (§6): event bit IN.  The headers defining the
`UV__POLL*`/`UV__EPOLL*` constants are not in src/; only distinctness of
the bits inside a 32-bit word is relied on.  Values follow the Linux epoll
ABI. -/
def UV__POLLIN : Nat := 1

/-- Modelled from the spec (§6): event bit OUT. -/
def UV__POLLOUT : Nat := 4

/-- Modelled from the spec (§6): event bit ERR. -/
def UV__POLLERR : Nat := 8

/-- Modelled from the spec (§6): event bit HUP. -/
def UV__POLLHUP : Nat := 16

/-- Modelled from the spec (§6): the edge-triggered flag "carried on
ADD/MOD"; the spec has a single such flag, so `UV__POLLET` and
`UV__EPOLLET` denote the same bit. -/
def UV__POLLET : Nat := 2 ^ 31

/-- Modelled from the spec (§6): kernel-side alias of the IN bit. -/
def UV__EPOLLIN : Nat := UV__POLLIN

/-- Modelled from the spec (§6): kernel-side alias of the OUT bit. -/
def UV__EPOLLOUT : Nat := UV__POLLOUT

/-- Modelled from the spec (§6): kernel-side alias of the ERR bit. -/
def UV__EPOLLERR : Nat := UV__POLLERR

/-- Modelled from the spec (§6): kernel-side alias of the HUP bit. -/
def UV__EPOLLHUP : Nat := UV__POLLHUP

/-- Modelled from the spec (§6): kernel-side alias of the edge flag. -/
def UV__EPOLLET : Nat := UV__POLLET

/-- All 32 bits set: `~0u`, so that C's `x & ~m` is `x &&& (mask32 ^^^ m)`. -/
def mask32 : Nat := 2 ^ 32 - 1

/-- The fields of `uv__io_t` used by `uv__io_poll`: the fd, the committed
interest mask `events`, the requested mask `levents`, and the latent
readiness bits `revents`. -/
structure Watcher where
  fd : Nat
  events : Nat
  levents : Nat
  revents : Nat
deriving DecidableEq, Repr

/-- An `epoll_ctl` operation. -/
inductive CtlOp where
  | ctl_add
  | ctl_mod
  | ctl_del
deriving DecidableEq, Repr

/-- Errno classes distinguished by `uv__io_poll`. -/
inductive Errno where
  | ok
  | eexist
  | eintr
  | other
deriving DecidableEq, Repr

/-- One recorded `epoll_ctl` call: operation, target fd, event mask. -/
structure CtlCall where
  op : CtlOp
  fd : Nat
  mask : Nat
deriving DecidableEq, Repr

/-- Outcome of reconciling one pending watcher: the updated watcher, the
`epoll_ctl` calls issued in order, the readiness bits fed to
`uv__io_feed` (if any), and whether `abort()` was reached. -/
structure RecResult where
  w : Watcher
  calls : List CtlCall
  fed : Option Nat
  aborted : Bool
deriving DecidableEq, Repr

/-- The per-watcher body of the pending-queue drain loop of `uv__io_poll`
(linux-core.c lines 136-196), transcribed in order:
`op = ADD; if (w->events & ~UV__POLLET) op = MOD;` then
`w->events = w->levents;` (the commit, before anything else); then the
edge-triggered short-circuit that feeds `levents & revents` without a
syscall; otherwise build the kernel mask (for edge-triggered always
IN|OUT|ET), issue `ctl(op)`, and on EEXIST re-issue as MOD
(level-triggered) or DEL then ADD (edge-triggered), aborting on any other
failure.  `ks i` is the errno of the i-th `ctl` call. -/
def reconcileWatcher (w : Watcher) (ks : Nat → Errno) : RecResult :=
  let op0 := if w.events &&& (mask32 ^^^ UV__POLLET) ≠ 0 then CtlOp.ctl_mod else CtlOp.ctl_add
  let w1 : Watcher := { w with events := w.levents }
  if op0 = CtlOp.ctl_mod ∧ w1.levents &&& UV__POLLET ≠ 0 then
    let pevents := w1.levents &&& w1.revents
    if pevents ≠ 0 then
      { w := { w1 with revents := w1.revents &&& (mask32 ^^^ pevents) },
        calls := [], fed := some pevents, aborted := false }
    else
      { w := w1, calls := [], fed := none, aborted := false }
  else
    let emask :=
      if w1.levents &&& UV__EPOLLET ≠ 0 then UV__EPOLLIN ||| UV__EPOLLOUT ||| UV__EPOLLET
      else w1.levents
    let c0 : CtlCall := ⟨op0, w1.fd, emask⟩
    match ks 0 with
    | Errno.ok => { w := w1, calls := [c0], fed := none, aborted := false }
    | Errno.eexist =>
        if w1.events &&& UV__POLLET = 0 then
          let c1 : CtlCall := ⟨CtlOp.ctl_mod, w1.fd, emask⟩
          match ks 1 with
          | Errno.ok => { w := w1, calls := [c0, c1], fed := none, aborted := false }
          | _ => { w := w1, calls := [c0, c1], fed := none, aborted := true }
        else
          let c1 : CtlCall := ⟨CtlOp.ctl_del, w1.fd, emask⟩
          match ks 1 with
          | Errno.ok =>
              let c2 : CtlCall := ⟨op0, w1.fd, emask⟩
              match ks 2 with
              | Errno.ok => { w := w1, calls := [c0, c1, c2], fed := none, aborted := false }
              | _ => { w := w1, calls := [c0, c1, c2], fed := none, aborted := true }
          | _ => { w := w1, calls := [c0, c1], fed := none, aborted := true }
    | _ => { w := w1, calls := [c0], fed := none, aborted := true }

/-- `loop->watchers[fd]` lookup in the fd-indexed table, modelled as an
association list. -/
def tblLookup : List (Nat × Watcher) → Nat → Option Watcher
  | [], _ => none
  | (f, w) :: t, fd => if f = fd then some w else tblLookup t fd

/-- In-place mutation of the watcher stored for `fd` (no entry is created
when `fd` is absent, matching pointer update through the table). -/
def tblUpdate : List (Nat × Watcher) → Nat → Watcher → List (Nat × Watcher)
  | [], _, _ => []
  | (f, w0) :: t, fd, w => if f = fd then (f, w) :: t else (f, w0) :: tblUpdate t fd w

/-- Result of the event dispatch loop: updated table, the
`uv__io_feed` invocations `(fd, pevents)` in order, the best-effort
`EPOLL_CTL_DEL` fds, and the `nevents` counter. -/
structure DispatchRes where
  table : List (Nat × Watcher)
  feeds : List (Nat × Nat)
  dels : List Nat
  nevents : Nat
deriving DecidableEq, Repr

/-- The `for (i = 0; i < nfds; i++)` dispatch loop of `uv__io_poll`
(linux-core.c lines 232-262): for each returned event `(fd, bits)`, if the
table slot is empty issue a best-effort DEL and ignore the event;
otherwise `w->revents |= bits`, mask with `w->events | EPOLLERR |
EPOLLHUP`, and if non-zero feed the watcher and count it. -/
def processEvents : List (Nat × Watcher) → List (Nat × Nat) → DispatchRes
  | table, [] => ⟨table, [], [], 0⟩
  | table, (fd, ev) :: rest =>
      match tblLookup table fd with
      | none =>
          let r := processEvents table rest
          { r with dels := fd :: r.dels }
      | some w =>
          let w1 : Watcher := { w with revents := w.revents ||| ev }
          let pev := w1.revents &&& (w1.events ||| UV__EPOLLERR ||| UV__EPOLLHUP)
          let r := processEvents (tblUpdate table fd w1) rest
          if pev ≠ 0 then { r with feeds := (fd, pev) :: r.feeds, nevents := r.nevents + 1 }
          else r

/-- Outcome of one `epoll_wait` syscall, with `dt` the milliseconds the
loop's cached clock advances across the call (non-negative: the monotonic
clock never goes backwards). -/
inductive WaitStep where
  | ready (evs : List (Nat × Nat)) (dt : Nat)
  | timeoutRet (dt : Nat)
  | eintr (dt : Nat)
  | othererr (dt : Nat)
deriving DecidableEq, Repr

/-- How the `for (;;)` wait loop of `uv__io_poll` ends. -/
inductive PollExit where
  | returned
  | dispatched
  | aborted
  | starved
deriving DecidableEq, Repr

/-- Trace of the wait loop: exit kind, final cached time, the cached time
recorded after each syscall return, the `(timeout, dt)` of each wait call
in order, the feeds and best-effort DELs, and the final table. -/
structure PollResult where
  exit : PollExit
  time : Nat
  timeline : List Nat
  waitCalls : List (Int × Nat)
  feeds : List (Nat × Nat)
  dels : List Nat
  table : List (Nat × Watcher)
deriving DecidableEq, Repr

/-- The `for (;;)` wait-and-dispatch loop of `uv__io_poll` (linux-core.c
lines 201-281).  `base` is `loop->time` captured before the loop; on each
syscall return the cached time is updated first (`SAVE_ERRNO(
uv__update_time(loop))`), unconditionally.  `nfds == 0` returns;
`nfds == -1` aborts unless EINTR, and EINTR continues for `timeout == -1`,
returns for `timeout == 0`, and otherwise falls into `update_timeout`:
`diff = loop->time - base; if (diff >= timeout) return; timeout -= diff;`.
A batch of events is dispatched; if none survived masking the loop
consults `timeout` the same way.  `starved` marks traces that end with the
loop still running (the kernel never returned again). -/
def pollLoop (base : Nat) :
    List WaitStep → List (Nat × Watcher) → Nat → Int → PollResult
  | [], table, time, _ =>
      { exit := PollExit.starved, time := time, timeline := [], waitCalls := [],
        feeds := [], dels := [], table := table }
  | WaitStep.timeoutRet dt :: _, table, time, timeout =>
      { exit := PollExit.returned, time := time + dt, timeline := [time + dt],
        waitCalls := [(timeout, dt)], feeds := [], dels := [], table := table }
  | WaitStep.othererr dt :: _, table, time, timeout =>
      { exit := PollExit.aborted, time := time + dt, timeline := [time + dt],
        waitCalls := [(timeout, dt)], feeds := [], dels := [], table := table }
  | WaitStep.eintr dt :: rest, table, time, timeout =>
      if timeout = -1 then
        let r := pollLoop base rest table (time + dt) timeout
        { r with timeline := (time + dt) :: r.timeline,
                 waitCalls := (timeout, dt) :: r.waitCalls }
      else if timeout = 0 then
        { exit := PollExit.returned, time := time + dt, timeline := [time + dt],
          waitCalls := [(timeout, dt)], feeds := [], dels := [], table := table }
      else
        let diff : Nat := time + dt - base
        if (diff : Int) ≥ timeout then
          { exit := PollExit.returned, time := time + dt, timeline := [time + dt],
            waitCalls := [(timeout, dt)], feeds := [], dels := [], table := table }
        else
          let r := pollLoop base rest table (time + dt) (timeout - (diff : Int))
          { r with timeline := (time + dt) :: r.timeline,
                   waitCalls := (timeout, dt) :: r.waitCalls }
  | WaitStep.ready evs dt :: rest, table, time, timeout =>
      let d := processEvents table evs
      if d.nevents ≠ 0 then
        { exit := PollExit.dispatched, time := time + dt, timeline := [time + dt],
          waitCalls := [(timeout, dt)], feeds := d.feeds, dels := d.dels, table := d.table }
      else if timeout = 0 then
        { exit := PollExit.returned, time := time + dt, timeline := [time + dt],
          waitCalls := [(timeout, dt)], feeds := d.feeds, dels := d.dels, table := d.table }
      else if timeout = -1 then
        let r := pollLoop base rest d.table (time + dt) timeout
        { r with timeline := (time + dt) :: r.timeline,
                 waitCalls := (timeout, dt) :: r.waitCalls,
                 feeds := d.feeds ++ r.feeds, dels := d.dels ++ r.dels }
      else
        let diff : Nat := time + dt - base
        if (diff : Int) ≥ timeout then
          { exit := PollExit.returned, time := time + dt, timeline := [time + dt],
            waitCalls := [(timeout, dt)], feeds := d.feeds, dels := d.dels, table := d.table }
        else
          let r := pollLoop base rest d.table (time + dt) (timeout - (diff : Int))
          { r with timeline := (time + dt) :: r.timeline,
                   waitCalls := (timeout, dt) :: r.waitCalls,
                   feeds := d.feeds ++ r.feeds, dels := d.dels ++ r.dels }


theorem idxPath_of_ge {m : Nat} (h : 2 ≤ m) :
    idxPath m = idxPath (m / 2) ++ [decide (m % 2 = 1)] := by
  rw [idxPath]
  simp [h]

theorem idxPath_of_lt {m : Nat} (h : m < 2) : idxPath m = [] := by
  rw [idxPath]
  simp [show ¬ 2 ≤ m by omega]

theorem pathList_step (p k r : Nat) (hr : r < 2) :
    pathList (2 * p + r) (k + 1) = decide (r = 1) :: pathList p k := by
  show (decide ((2 * p + r) % 2 = 1) :: pathList ((2 * p + r) / 2) k) = _
  have h1 : (2 * p + r) % 2 = r := by omega
  have h2 : (2 * p + r) / 2 = p := by omega
  rw [h1, h2]

theorem heapPathAux_spec : ∀ (n path k : Nat),
    pathList (heapPathAux path k n).1 (heapPathAux path k n).2
      = idxPath n ++ pathList path k := by
  intro n
  induction n using Nat.strong_induction_on with
  | _ n ih =>
    intro path k
    by_cases h : 2 ≤ n
    · have hrec : heapPathAux path k n = heapPathAux (2 * path + n % 2) (k + 1) (n / 2) := by
        rw [heapPathAux]
        simp [h]
      rw [hrec, ih (n / 2) (by omega) (2 * path + n % 2) (k + 1),
        pathList_step path k (n % 2) (by omega), idxPath_of_ge h]
      simp
    · have hstop : heapPathAux path k n = (path, k) := by
        rw [heapPathAux]
        simp [h]
      rw [hstop, idxPath_of_lt (by omega)]
      simp

/-- The path traversed by `heap_insert`/`heap_remove` for count `n` is the
binary expansion of `n` from the most-significant bit down, excluding the
leading 1. -/
theorem heapPath_spec (n : Nat) :
    pathList (heapPath n).1 (heapPath n).2 = idxPath n := by
  have h := heapPathAux_spec n 0 0
  simpa [heapPath, pathList] using h

theorem subtreeAt_nil : ∀ (p : List Bool), subtreeAt HTree.nil p = HTree.nil := by
  intro p
  cases p <;> rfl

theorem hasAt_nil (p : List Bool) : hasAt HTree.nil p = false := by
  simp [hasAt, nodeAt, subtreeAt_nil]

theorem hasAt_node_nilPath (v : Nat) (l r : HTree) : hasAt (HTree.node v l r) [] = true := rfl

theorem hasAt_node_true (v : Nat) (l r : HTree) (qs : List Bool) :
    hasAt (HTree.node v l r) (true :: qs) = hasAt r qs := rfl

theorem hasAt_node_false (v : Nat) (l r : HTree) (qs : List Bool) :
    hasAt (HTree.node v l r) (false :: qs) = hasAt l qs := rfl

theorem nodeAt_node_true (v : Nat) (l r : HTree) (qs : List Bool) :
    nodeAt (HTree.node v l r) (true :: qs) = nodeAt r qs := rfl

theorem nodeAt_node_false (v : Nat) (l r : HTree) (qs : List Bool) :
    nodeAt (HTree.node v l r) (false :: qs) = nodeAt l qs := rfl

theorem nodeAt_nil (p : List Bool) : nodeAt HTree.nil p = none := by
  simp [nodeAt, subtreeAt_nil]

theorem idxPath_inj : ∀ (m : Nat), 1 ≤ m → ∀ (m' : Nat), 1 ≤ m' →
    idxPath m = idxPath m' → m = m' := by
  intro m
  induction m using Nat.strong_induction_on with
  | _ m ih =>
    intro hm m' hm' heq
    by_cases h2 : 2 ≤ m <;> by_cases h2' : 2 ≤ m'
    · rw [idxPath_of_ge h2, idxPath_of_ge h2'] at heq
      have hsplit := List.append_inj' heq (by simp)
      have hdiv : m / 2 = m' / 2 :=
        ih (m / 2) (by omega) (by omega) (m' / 2) (by omega) hsplit.1
      have hbit : decide (m % 2 = 1) = decide (m' % 2 = 1) := by
        have h1 := hsplit.2
        simpa using h1
      rw [decide_eq_decide] at hbit
      by_cases hb : m % 2 = 1
      · have := hbit.mp hb
        omega
      · have : ¬ m' % 2 = 1 := fun hh => hb (hbit.mpr hh)
        omega
    · rw [idxPath_of_ge h2] at heq
      rw [idxPath_of_lt (show m' < 2 by omega)] at heq
      simp at heq
    · rw [idxPath_of_ge h2'] at heq
      rw [idxPath_of_lt (show m < 2 by omega)] at heq
      simp at heq
    · omega

theorem nodeAt_insertAt (x : Nat) : ∀ (p : List Bool) (t : HTree) (q : List Bool),
    hasAt t p = false → (p = [] ∨ hasAt t p.dropLast = true) →
    nodeAt (insertAt t p x) q = if q = p then some x else nodeAt t q := by
  intro p
  induction p with
  | nil =>
    intro t q hp _
    cases t with
    | node v l r => simp [hasAt, nodeAt, subtreeAt] at hp
    | nil =>
      have hins : insertAt HTree.nil [] x = HTree.node x HTree.nil HTree.nil := rfl
      rw [hins]
      cases q with
      | nil => simp [nodeAt, subtreeAt]
      | cons b qs =>
        have hnone : nodeAt (HTree.node x HTree.nil HTree.nil) (b :: qs) = none := by
          cases b
          · rw [nodeAt_node_false, nodeAt_nil]
          · rw [nodeAt_node_true, nodeAt_nil]
        rw [hnone, if_neg (by simp), nodeAt_nil]
  | cons b bs ih =>
    intro t q hp hd
    have hd' : hasAt t ((b :: bs).dropLast) = true := by
      rcases hd with hd | hd
      · exact absurd hd (by simp)
      · exact hd
    cases t with
    | nil => rw [hasAt_nil] at hd'; exact absurd hd' (by simp)
    | node v l r =>
      cases b
      case true =>
        have hsub : hasAt r bs = false := by rw [hasAt_node_true] at hp; exact hp
        have hsubd : bs = [] ∨ hasAt r bs.dropLast = true := by
          cases bs with
          | nil => exact Or.inl rfl
          | cons c cs =>
            right
            rw [List.dropLast_cons₂, hasAt_node_true] at hd'
            exact hd'
        have hins : insertAt (HTree.node v l r) (true :: bs) x
            = HTree.node v l (insertAt r bs x) := rfl
        rw [hins]
        cases q with
        | nil =>
          rw [if_neg (by simp)]
          rfl
        | cons b' qs =>
          cases b'
          case false =>
            rw [nodeAt_node_false, nodeAt_node_false, if_neg (by simp)]
          case true =>
            rw [nodeAt_node_true, nodeAt_node_true, ih r qs hsub hsubd]
            by_cases hq : qs = bs
            · rw [if_pos hq, if_pos (by rw [hq])]
            · rw [if_neg hq, if_neg (by simp [hq])]
      case false =>
        have hsub : hasAt l bs = false := by rw [hasAt_node_false] at hp; exact hp
        have hsubd : bs = [] ∨ hasAt l bs.dropLast = true := by
          cases bs with
          | nil => exact Or.inl rfl
          | cons c cs =>
            right
            rw [List.dropLast_cons₂, hasAt_node_false] at hd'
            exact hd'
        have hins : insertAt (HTree.node v l r) (false :: bs) x
            = HTree.node v (insertAt l bs x) r := rfl
        rw [hins]
        cases q with
        | nil =>
          rw [if_neg (by simp)]
          rfl
        | cons b' qs =>
          cases b'
          case true =>
            rw [nodeAt_node_true, nodeAt_node_true, if_neg (by simp)]
          case false =>
            rw [nodeAt_node_false, nodeAt_node_false, ih l qs hsub hsubd]
            by_cases hq : qs = bs
            · rw [if_pos hq, if_pos (by rw [hq])]
            · rw [if_neg hq, if_neg (by simp [hq])]

theorem hasAt_setRoot (v : Nat) (t : HTree) (q : List Bool) :
    hasAt (setRoot v t) q = hasAt t q := by
  cases t with
  | nil => rfl
  | node w l r =>
    cases q with
    | nil => rfl
    | cons b qs =>
      cases b
      · rw [setRoot, hasAt_node_false, hasAt_node_false]
      · rw [setRoot, hasAt_node_true, hasAt_node_true]

theorem hasAt_siftUp (lt : Nat → Nat → Bool) (x : Nat) :
    ∀ (pl : List Bool) (t : HTree) (q : List Bool),
      hasAt (siftUp lt x t pl).1 q = hasAt t q := by
  intro pl
  induction pl with
  | nil =>
    intro t q
    cases t <;> rfl
  | cons b bs ih =>
    intro t q
    cases t with
    | nil => rfl
    | node v l r =>
      cases b
      case true =>
        rcases hs : siftUp lt x r bs with ⟨r2, c⟩
        have hr2 : ∀ q', hasAt r2 q' = hasAt r q' := by
          intro q'
          have h1 := ih r q'
          rw [hs] at h1
          exact h1
        cases c
        case false =>
          have hstep : (siftUp lt x (HTree.node v l r) (true :: bs)).1
              = HTree.node v l r2 := by
            simp [siftUp, hs]
          rw [hstep]
          cases q with
          | nil => rfl
          | cons b' qs =>
            cases b'
            · rw [hasAt_node_false, hasAt_node_false]
            · rw [hasAt_node_true, hasAt_node_true, hr2]
        case true =>
          by_cases hlt : lt x v
          · have hstep : (siftUp lt x (HTree.node v l r) (true :: bs)).1
                = HTree.node x l (setRoot v r2) := by
              simp [siftUp, hs, hlt]
            rw [hstep]
            cases q with
            | nil => rfl
            | cons b' qs =>
              cases b'
              · rw [hasAt_node_false, hasAt_node_false]
              · rw [hasAt_node_true, hasAt_node_true, hasAt_setRoot, hr2]
          · have hstep : (siftUp lt x (HTree.node v l r) (true :: bs)).1
                = HTree.node v l r2 := by
              simp [siftUp, hs, hlt]
            rw [hstep]
            cases q with
            | nil => rfl
            | cons b' qs =>
              cases b'
              · rw [hasAt_node_false, hasAt_node_false]
              · rw [hasAt_node_true, hasAt_node_true, hr2]
      case false =>
        rcases hs : siftUp lt x l bs with ⟨l2, c⟩
        have hl2 : ∀ q', hasAt l2 q' = hasAt l q' := by
          intro q'
          have h1 := ih l q'
          rw [hs] at h1
          exact h1
        cases c
        case false =>
          have hstep : (siftUp lt x (HTree.node v l r) (false :: bs)).1
              = HTree.node v l2 r := by
            simp [siftUp, hs]
          rw [hstep]
          cases q with
          | nil => rfl
          | cons b' qs =>
            cases b'
            · rw [hasAt_node_false, hasAt_node_false, hl2]
            · rw [hasAt_node_true, hasAt_node_true]
        case true =>
          by_cases hlt : lt x v
          · have hstep : (siftUp lt x (HTree.node v l r) (false :: bs)).1
                = HTree.node x (setRoot v l2) r := by
              simp [siftUp, hs, hlt]
            rw [hstep]
            cases q with
            | nil => rfl
            | cons b' qs =>
              cases b'
              · rw [hasAt_node_false, hasAt_node_false, hasAt_setRoot, hl2]
              · rw [hasAt_node_true, hasAt_node_true]
          · have hstep : (siftUp lt x (HTree.node v l r) (false :: bs)).1
                = HTree.node v l2 r := by
              simp [siftUp, hs, hlt]
            rw [hstep]
            cases q with
            | nil => rfl
            | cons b' qs =>
              cases b'
              · rw [hasAt_node_false, hasAt_node_false, hl2]
              · rw [hasAt_node_true, hasAt_node_true]


/-- C3.  On a complete heap with `nelts` elements, `heap_insert` computes
exactly the path given by the binary expansion of `nelts + 1` read from the
most-significant bit down (excluding the leading 1), links the new node at
that left-most free slot of the bottom row, increments `nelts` by exactly
one, and the tree stays a complete binary tree. -/
theorem heap_insert_complete (lt : Nat → Nat → Bool) (x : Nat) (h : Heap)
    (hc : completeN h.min h.nelts) :
    pathList (heapPath (1 + h.nelts)).1 (heapPath (1 + h.nelts)).2 = idxPath (1 + h.nelts)
    ∧ nodeAt (insertAt h.min (idxPath (1 + h.nelts)) x) (idxPath (1 + h.nelts)) = some x
    ∧ (heap_insert lt x h).nelts = h.nelts + 1
    ∧ completeN (heap_insert lt x h).min (h.nelts + 1) := by
  have hspec := heapPath_spec (1 + h.nelts)
  have hEmpty : hasAt h.min (idxPath (1 + h.nelts)) = false := by
    have h1 := hc (1 + h.nelts) (by omega)
    rcases Bool.eq_false_or_eq_true (hasAt h.min (idxPath (1 + h.nelts))) with hb | hb
    · have h2 := h1.mp hb
      omega
    · exact hb
  have hParent : idxPath (1 + h.nelts) = []
      ∨ hasAt h.min (idxPath (1 + h.nelts)).dropLast = true := by
    rcases Nat.eq_zero_or_pos h.nelts with h0 | hpos
    · left
      rw [h0, idxPath_of_lt (by omega)]
    · right
      rw [idxPath_of_ge (show 2 ≤ 1 + h.nelts by omega)]
      rw [List.dropLast_concat]
      have h1 := hc ((1 + h.nelts) / 2) (by omega)
      exact h1.mpr (by omega)
  refine ⟨hspec, ?_, by simp [heap_insert], ?_⟩
  · rw [nodeAt_insertAt x (idxPath (1 + h.nelts)) h.min (idxPath (1 + h.nelts)) hEmpty hParent,
      if_pos rfl]
  · have hmin : (heap_insert lt x h).min
        = (siftUp lt x (insertAt h.min (idxPath (1 + h.nelts)) x) (idxPath (1 + h.nelts))).1 := by
      simp [heap_insert, hspec]
    intro m hm
    rw [hmin, hasAt_siftUp]
    have hins := nodeAt_insertAt x (idxPath (1 + h.nelts)) h.min (idxPath m) hEmpty hParent
    by_cases hq : idxPath m = idxPath (1 + h.nelts)
    · have hmeq : m = 1 + h.nelts := idxPath_inj m hm (1 + h.nelts) (by omega) hq
      simp only [hasAt]
      rw [hins, if_pos hq]
      simp only [Option.isSome_some]
      constructor
      · intro _
        omega
      · intro _
        trivial
    · simp only [hasAt]
      rw [hins, if_neg hq]
      have h1 := hc m hm
      simp only [hasAt] at h1
      have hne : m ≠ 1 + h.nelts := fun hcontra => hq (by rw [hcontra])
      constructor
      · intro hh
        have := h1.mp hh
        omega
      · intro hh
        exact h1.mpr (by omega)

/-- Witness for C3 at the empty heap (which is complete with 0 nodes) and
a concrete new node. -/
theorem heap_insert_complete_witness :
    completeN heap_init.min heap_init.nelts
    ∧ (pathList (heapPath (1 + heap_init.nelts)).1 (heapPath (1 + heap_init.nelts)).2
         = idxPath (1 + heap_init.nelts)
       ∧ nodeAt (insertAt heap_init.min (idxPath (1 + heap_init.nelts)) 7)
           (idxPath (1 + heap_init.nelts)) = some 7
       ∧ (heap_insert Nat.blt 7 heap_init).nelts = heap_init.nelts + 1
       ∧ completeN (heap_insert Nat.blt 7 heap_init).min (heap_init.nelts + 1)) := by
  have hc : completeN heap_init.min heap_init.nelts := by
    intro m hm
    constructor
    · intro hcontra
      rw [show heap_init.min = HTree.nil from rfl, hasAt_nil] at hcontra
      exact absurd hcontra (by simp)
    · intro hcontra
      rw [show heap_init.nelts = 0 from rfl] at hcontra
      omega
  exact ⟨hc, heap_insert_complete Nat.blt 7 heap_init hc⟩

/-- C1.  The claim is violated by the code: starting from the empty heap,
insert nodes 1, 2, 3 under the numeric comparator (a reachable heap: root
1, children 2 and 3), then `heap_remove` the root.  The last node 3 is
spliced into the root position, but the sift-down loop of `heap_remove`
tests `less_than(smallest, child)` with `smallest == child`, which is
irreflexively false, so it never swaps: the result is root 3 with child 2,
and the min-heap property does not hold when `heap_remove` returns. -/
theorem heap_remove_sift_down_never_swaps :
    heap_remove Nat.blt 1
        (heap_insert Nat.blt 3 (heap_insert Nat.blt 2 (heap_insert Nat.blt 1 heap_init)))
      = ⟨HTree.node 3 (HTree.node 2 HTree.nil HTree.nil) HTree.nil, 2⟩
    ∧ heapOrdered Nat.blt
        (heap_remove Nat.blt 1
          (heap_insert Nat.blt 3 (heap_insert Nat.blt 2 (heap_insert Nat.blt 1 heap_init)))).min
      = false
    ∧ memTree 2
        (heap_remove Nat.blt 1
          (heap_insert Nat.blt 3 (heap_insert Nat.blt 2 (heap_insert Nat.blt 1 heap_init)))).min
      = true
    ∧ rootId
        (heap_remove Nat.blt 1
          (heap_insert Nat.blt 3 (heap_insert Nat.blt 2 (heap_insert Nat.blt 1 heap_init)))).min
      = 3
    ∧ Nat.blt 2 3 = true := by
  refine ⟨?_, ?_, ?_, ?_, ?_⟩ <;>
    simp [heap_remove, heap_insert, heap_init, heapPath, heapPathAux, pathList,
      insertAt, siftUp, siftDown, spliceAndSift, removeAt, subtreeAt, rootId, setRoot,
      heapOrdered, rootLe, memTree, Nat.blt]

/-- C2.  The claim is violated by the code: on the valid 3-element heap
built by inserting 2, 3, 4 (root 2, left 3, right 4), inserting node 1 and
then removing it does not restore the heap.  The insert sifts 1 to the
root, pushing 2 and 3 down; the remove splices the last node 3 into the
root position, and the broken sift-down loop leaves it there, yielding
root 3, left 2, right 4 instead of the original root 2, left 3, right 4. -/
theorem heap_insert_remove_not_identity :
    heap_remove Nat.blt 1
        (heap_insert Nat.blt 1
          (heap_insert Nat.blt 4 (heap_insert Nat.blt 3 (heap_insert Nat.blt 2 heap_init))))
      = ⟨HTree.node 3 (HTree.node 2 HTree.nil HTree.nil) (HTree.node 4 HTree.nil HTree.nil), 3⟩
    ∧ heap_insert Nat.blt 4 (heap_insert Nat.blt 3 (heap_insert Nat.blt 2 heap_init))
      = ⟨HTree.node 2 (HTree.node 3 HTree.nil HTree.nil) (HTree.node 4 HTree.nil HTree.nil), 3⟩
    ∧ heap_remove Nat.blt 1
        (heap_insert Nat.blt 1
          (heap_insert Nat.blt 4 (heap_insert Nat.blt 3 (heap_insert Nat.blt 2 heap_init))))
      ≠ heap_insert Nat.blt 4 (heap_insert Nat.blt 3 (heap_insert Nat.blt 2 heap_init)) := by
  refine ⟨?_, ?_, ?_⟩ <;>
    simp [heap_remove, heap_insert, heap_init, heapPath, heapPathAux, pathList,
      insertAt, siftUp, siftDown, spliceAndSift, removeAt, subtreeAt, rootId, setRoot, Nat.blt]

/-- C10.  `heap_remove` on a heap with `nelts == 0` returns immediately and
leaves the heap unchanged, for every node argument; hence `heap_dequeue`
on an empty heap is a no-op. -/
theorem heap_remove_empty_noop (lt : Nat → Nat → Bool) (x : Nat) (h : Heap)
    (h0 : h.nelts = 0) :
    heap_remove lt x h = h ∧ heap_dequeue lt h = h := by
  constructor
  · simp [heap_remove, h0]
  · simp [heap_dequeue, heap_remove, h0]

/-- Witness for C10 at the concrete empty heap and a node not in it. -/
theorem heap_remove_empty_noop_witness :
    heap_init.nelts = 0
    ∧ heap_remove Nat.blt 42 heap_init = heap_init
    ∧ heap_dequeue Nat.blt heap_init = heap_init := by
  refine ⟨rfl, ?_⟩
  exact heap_remove_empty_noop Nat.blt 42 heap_init rfl




theorem tblLookup_update_none (fd : Nat) :
    ∀ (table : List (Nat × Watcher)) (f : Nat) (w : Watcher),
      tblLookup table fd = none → tblLookup (tblUpdate table f w) fd = none := by
  intro table
  induction table with
  | nil => intro f w _; rfl
  | cons e t ih =>
    intro f w h
    rcases e with ⟨g, w0⟩
    by_cases hg : g = fd
    · rw [tblLookup, if_pos hg] at h
      exact absurd h (by simp)
    · rw [tblLookup, if_neg hg] at h
      by_cases hf : g = f
      · rw [tblUpdate, if_pos hf, tblLookup, if_neg hg]
        exact h
      · rw [tblUpdate, if_neg hf, tblLookup, if_neg hg]
        exact ih f w h

theorem processEvents_nevents : ∀ (evs : List (Nat × Nat)) (table : List (Nat × Watcher)),
    (processEvents table evs).nevents = (processEvents table evs).feeds.length := by
  intro evs
  induction evs with
  | nil => intro table; rfl
  | cons e rest ih =>
    intro table
    rcases e with ⟨fd, ev⟩
    rcases hl : tblLookup table fd with _ | w
    · simp only [processEvents, hl]
      exact ih table
    · simp only [processEvents, hl]
      split
      · simp only [List.length_cons]
        rw [ih]
      · exact ih _

theorem processEvents_dels_mem (fd ev : Nat) :
    ∀ (evs : List (Nat × Nat)) (table : List (Nat × Watcher)),
      (fd, ev) ∈ evs → tblLookup table fd = none →
      fd ∈ (processEvents table evs).dels := by
  intro evs
  induction evs with
  | nil =>
    intro table hmem _
    simp at hmem
  | cons e rest ih =>
    intro table hmem hnone
    rcases e with ⟨fd2, ev2⟩
    rcases List.mem_cons.mp hmem with hh | hh
    · have hfd : fd2 = fd := by
        have h1 := congrArg Prod.fst hh
        exact h1.symm
      subst hfd
      rcases hl : tblLookup table fd2 with _ | w
      · simp only [processEvents, hl]
        exact List.mem_cons_self _ _
      · rw [hnone] at hl
        exact absurd hl (by simp)
    · rcases hl : tblLookup table fd2 with _ | w
      · simp only [processEvents, hl]
        exact List.mem_cons_of_mem _ (ih table hh hnone)
      · simp only [processEvents, hl]
        have hupd := tblLookup_update_none fd table fd2
          { w with revents := w.revents ||| ev2 } hnone
        split
        · exact ih _ hh hupd
        · exact ih _ hh hupd

theorem processEvents_feeds_ne (fd : Nat) :
    ∀ (evs : List (Nat × Nat)) (table : List (Nat × Watcher)),
      tblLookup table fd = none →
      ∀ q ∈ (processEvents table evs).feeds, q.1 ≠ fd := by
  intro evs
  induction evs with
  | nil =>
    intro table _ q hq
    simp [processEvents] at hq
  | cons e rest ih =>
    intro table hnone q hq
    rcases e with ⟨fd2, ev2⟩
    rcases hl : tblLookup table fd2 with _ | w
    · simp only [processEvents, hl] at hq
      exact ih table hnone q hq
    · have hne : fd2 ≠ fd := by
        intro hcontra
        rw [hcontra, hnone] at hl
        exact absurd hl (by simp)
      simp only [processEvents, hl] at hq
      have hupd := tblLookup_update_none fd table fd2
        { w with revents := w.revents ||| ev2 } hnone
      revert hq
      split
      · intro hq
        rcases List.mem_cons.mp hq with hh | hh
        · rw [hh]
          exact hne
        · exact ih _ hupd q hh
      · intro hq
        exact ih _ hupd q hq

/-- C8.  An event whose fd has an empty slot in the watcher table (the
watcher was stopped since submission) never reaches a watcher callback and
is not counted as dispatched: a best-effort kernel DEL is issued for the
fd, the event is otherwise ignored, and `nevents` counts exactly the fed
watchers. -/
theorem stale_event_ignored (table : List (Nat × Watcher)) (evs : List (Nat × Nat))
    (fd ev : Nat) (hmem : (fd, ev) ∈ evs) (hnone : tblLookup table fd = none) :
    fd ∈ (processEvents table evs).dels
    ∧ (∀ q ∈ (processEvents table evs).feeds, q.1 ≠ fd)
    ∧ (processEvents table evs).nevents = (processEvents table evs).feeds.length :=
  ⟨processEvents_dels_mem fd ev evs table hmem hnone,
   processEvents_feeds_ne fd evs table hnone,
   processEvents_nevents evs table⟩

/-- Witness for C8: a table holding only fd 1, and an event batch with an
event for stopped fd 2. -/
theorem stale_event_ignored_witness :
    ((2, UV__POLLIN) ∈ [((2 : Nat), UV__POLLIN), (1, UV__POLLIN)]
       ∧ tblLookup [(1, ⟨1, UV__POLLIN, UV__POLLIN, 0⟩)] 2 = none)
    ∧ (2 ∈ (processEvents [(1, ⟨1, UV__POLLIN, UV__POLLIN, 0⟩)]
              [(2, UV__POLLIN), (1, UV__POLLIN)]).dels
       ∧ (∀ q ∈ (processEvents [(1, ⟨1, UV__POLLIN, UV__POLLIN, 0⟩)]
                   [(2, UV__POLLIN), (1, UV__POLLIN)]).feeds, q.1 ≠ 2)
       ∧ (processEvents [(1, ⟨1, UV__POLLIN, UV__POLLIN, 0⟩)]
            [(2, UV__POLLIN), (1, UV__POLLIN)]).nevents
           = (processEvents [(1, ⟨1, UV__POLLIN, UV__POLLIN, 0⟩)]
               [(2, UV__POLLIN), (1, UV__POLLIN)]).feeds.length) := by
  constructor
  · exact ⟨by decide, by decide⟩
  · exact stale_event_ignored [(1, ⟨1, UV__POLLIN, UV__POLLIN, 0⟩)]
      [(2, UV__POLLIN), (1, UV__POLLIN)] 2 UV__POLLIN (by decide) (by decide)

/-- Counterexample for C5: a watcher whose committed mask `events` is
exactly the edge-trigger flag (non-zero) is still submitted with `ADD`,
because the code tests `w->events & ~UV__POLLET`, not `w->events`. -/
theorem op_add_despite_nonzero_events :
    (reconcileWatcher ⟨3, UV__POLLET, UV__POLLIN, 0⟩ (fun _ => Errno.ok)).calls
      = [⟨CtlOp.ctl_add, 3, UV__POLLIN⟩]
    ∧ (⟨3, UV__POLLET, UV__POLLIN, 0⟩ : Watcher).events ≠ 0 := by
  constructor
  · decide
  · decide

theorem reconcile_calls_shape (w : Watcher) (ks : Nat → Errno) :
    (reconcileWatcher w ks).calls = []
    ∨ ∃ rest, (reconcileWatcher w ks).calls
        = (⟨if w.events &&& (mask32 ^^^ UV__POLLET) ≠ 0 then CtlOp.ctl_mod else CtlOp.ctl_add,
            w.fd,
            if w.levents &&& UV__EPOLLET ≠ 0 then UV__EPOLLIN ||| UV__EPOLLOUT ||| UV__EPOLLET
            else w.levents⟩ : CtlCall) :: rest := by
  unfold reconcileWatcher
  dsimp only
  repeat' split
  all_goals first
    | exact Or.inl rfl
    | exact Or.inr ⟨_, rfl⟩

/-- C5 as amended: the first kernel ctl call issued for a drained watcher
(when one is issued at all) uses `ADD` iff the committed mask `events` has
no bits besides the edge-trigger flag (`events & ~UV__POLLET == 0`), and
`MOD` otherwise. -/
theorem reconcile_first_op (w : Watcher) (ks : Nat → Errno) (c : CtlCall)
    (h : (reconcileWatcher w ks).calls.head? = some c) :
    c.op = CtlOp.ctl_add ↔ w.events &&& (mask32 ^^^ UV__POLLET) = 0 := by
  rcases reconcile_calls_shape w ks with hs | ⟨rest, hs⟩
  · rw [hs] at h
    exact absurd h (by simp)
  · rw [hs] at h
    simp only [List.head?_cons, Option.some.injEq] at h
    rw [← h]
    by_cases h0 : w.events &&& (mask32 ^^^ UV__POLLET) = 0 <;> simp [h0]

/-- Witness for C5-as-amended at a concrete watcher whose first ctl call
exists. -/
theorem reconcile_first_op_witness :
    (reconcileWatcher ⟨9, 0, UV__POLLIN, 0⟩ (fun _ => Errno.ok)).calls.head?
        = some ⟨CtlOp.ctl_add, 9, UV__POLLIN⟩
    ∧ ((⟨CtlOp.ctl_add, 9, UV__POLLIN⟩ : CtlCall).op = CtlOp.ctl_add
        ↔ (⟨9, 0, UV__POLLIN, 0⟩ : Watcher).events &&& (mask32 ^^^ UV__POLLET) = 0) := by
  refine ⟨by decide, ?_⟩
  exact reconcile_first_op ⟨9, 0, UV__POLLIN, 0⟩ (fun _ => Errno.ok)
    ⟨CtlOp.ctl_add, 9, UV__POLLIN⟩ (by decide)

/-- Counterexample for C6: a level-to-edge transition takes the
short-circuit (no ctl call at all), yet the committed mask `events` has
already been overwritten with `levents` — line 140 runs before the
short-circuit check and before any syscall, so `events := levents` is not
performed "only after the kernel syscall succeeds". -/
theorem events_committed_without_syscall :
    (reconcileWatcher ⟨4, UV__POLLIN, UV__POLLIN ||| UV__POLLET, 0⟩ (fun _ => Errno.ok)).calls
      = []
    ∧ (reconcileWatcher ⟨4, UV__POLLIN, UV__POLLIN ||| UV__POLLET, 0⟩
        (fun _ => Errno.ok)).w.events = UV__POLLIN ||| UV__POLLET
    ∧ UV__POLLIN ||| UV__POLLET ≠ UV__POLLIN := by
  refine ⟨by decide, by decide, by decide⟩

/-- C6 as amended: when a pending watcher with a non-trivially committed
mask requests an edge-triggered mask (`op == MOD && (levents &
UV__POLLET)`), the latent bits `revents ∩ levents` are delivered to the
watcher and cleared from `revents` without any kernel ctl call; the
committed mask `events` is set to `levents` unconditionally when the
watcher is drained — before this short-circuit check and before any
syscall — not only after a successful syscall. -/
theorem reconcile_et_short_circuit (w : Watcher) (ks : Nat → Errno)
    (hmod : w.events &&& (mask32 ^^^ UV__POLLET) ≠ 0)
    (het : w.levents &&& UV__POLLET ≠ 0) :
    (reconcileWatcher w ks).w.events = w.levents
    ∧ (reconcileWatcher w ks).calls = []
    ∧ (reconcileWatcher w ks).fed
        = (if w.levents &&& w.revents ≠ 0 then some (w.levents &&& w.revents) else none)
    ∧ (reconcileWatcher w ks).w.revents
        = (if w.levents &&& w.revents ≠ 0
            then w.revents &&& (mask32 ^^^ (w.levents &&& w.revents))
            else w.revents) := by
  by_cases hp : w.levents &&& w.revents ≠ 0 <;>
    simp [reconcileWatcher, hmod, het, hp]

/-- Witness for C6-as-amended: a concrete level-to-edge transition with a
latent readable bit pending. -/
theorem reconcile_et_short_circuit_witness :
    ((⟨4, UV__POLLIN, UV__POLLIN ||| UV__POLLET, UV__POLLIN⟩ : Watcher).events
        &&& (mask32 ^^^ UV__POLLET) ≠ 0
     ∧ (⟨4, UV__POLLIN, UV__POLLIN ||| UV__POLLET, UV__POLLIN⟩ : Watcher).levents
        &&& UV__POLLET ≠ 0)
    ∧ ((reconcileWatcher ⟨4, UV__POLLIN, UV__POLLIN ||| UV__POLLET, UV__POLLIN⟩
          (fun _ => Errno.ok)).w.events = UV__POLLIN ||| UV__POLLET
       ∧ (reconcileWatcher ⟨4, UV__POLLIN, UV__POLLIN ||| UV__POLLET, UV__POLLIN⟩
            (fun _ => Errno.ok)).calls = []
       ∧ (reconcileWatcher ⟨4, UV__POLLIN, UV__POLLIN ||| UV__POLLET, UV__POLLIN⟩
            (fun _ => Errno.ok)).fed
           = (if (UV__POLLIN ||| UV__POLLET) &&& UV__POLLIN ≠ 0
               then some ((UV__POLLIN ||| UV__POLLET) &&& UV__POLLIN) else none)
       ∧ (reconcileWatcher ⟨4, UV__POLLIN, UV__POLLIN ||| UV__POLLET, UV__POLLIN⟩
            (fun _ => Errno.ok)).w.revents
           = (if (UV__POLLIN ||| UV__POLLET) &&& UV__POLLIN ≠ 0
               then UV__POLLIN &&& (mask32 ^^^ ((UV__POLLIN ||| UV__POLLET) &&& UV__POLLIN))
               else UV__POLLIN)) := by
  refine ⟨⟨by decide, by decide⟩, ?_⟩
  exact reconcile_et_short_circuit ⟨4, UV__POLLIN, UV__POLLIN ||| UV__POLLET, UV__POLLIN⟩
    (fun _ => Errno.ok) (by decide) (by decide)

/-- C7.  When a reconciliation `ADD` (committed mask has nothing besides
the edge flag) is rejected by the kernel with EEXIST: a level-triggered
watcher (requested mask without the edge flag) is re-issued as `MOD`, an
edge-triggered one as `DEL` followed by `ADD`; and every ctl failure other
than EEXIST aborts the process (first-call EINTR/other errors abort, and
any failure of the re-issued calls aborts). -/
theorem reconcile_eexist_recovery (w : Watcher) (ks : Nat → Errno)
    (hadd : w.events &&& (mask32 ^^^ UV__POLLET) = 0) :
    ((ks 0 = Errno.eintr ∨ ks 0 = Errno.other) →
        (reconcileWatcher w ks).aborted = true
        ∧ (reconcileWatcher w ks).calls.map CtlCall.op = [CtlOp.ctl_add])
    ∧ (ks 0 = Errno.eexist →
        ((w.levents &&& UV__POLLET = 0 →
            (reconcileWatcher w ks).calls.map CtlCall.op = [CtlOp.ctl_add, CtlOp.ctl_mod]
            ∧ ((reconcileWatcher w ks).aborted = false ↔ ks 1 = Errno.ok))
         ∧ (w.levents &&& UV__POLLET ≠ 0 →
            (ks 1 = Errno.ok →
                (reconcileWatcher w ks).calls.map CtlCall.op
                  = [CtlOp.ctl_add, CtlOp.ctl_del, CtlOp.ctl_add]
                ∧ ((reconcileWatcher w ks).aborted = false ↔ ks 2 = Errno.ok))
            ∧ (ks 1 ≠ Errno.ok → (reconcileWatcher w ks).aborted = true)))) := by
  constructor
  · rintro (hk | hk) <;> constructor <;> simp [reconcileWatcher, hadd, hk]
  · intro hk0
    constructor
    · intro hlev
      constructor
      · rcases hk1 : ks 1 <;> simp [reconcileWatcher, hadd, hk0, hlev, hk1]
      · rcases hk1 : ks 1 <;> simp [reconcileWatcher, hadd, hk0, hlev, hk1]
    · intro hket
      constructor
      · intro hk1
        constructor
        · rcases hk2 : ks 2 <;> simp [reconcileWatcher, hadd, hk0, hket, hk1, hk2]
        · rcases hk2 : ks 2 <;> simp [reconcileWatcher, hadd, hk0, hket, hk1, hk2]
      · intro hk1
        rcases hk1' : ks 1
        · exact absurd hk1' hk1
        · simp [reconcileWatcher, hadd, hk0, hket, hk1']
        · simp [reconcileWatcher, hadd, hk0, hket, hk1']
        · simp [reconcileWatcher, hadd, hk0, hket, hk1']

/-- Witness for C7: a fresh watcher (events = 0) whose level-triggered ADD
hits EEXIST and whose re-issued MOD succeeds. -/
theorem reconcile_eexist_recovery_witness :
    ((⟨5, 0, UV__POLLIN, 0⟩ : Watcher).events &&& (mask32 ^^^ UV__POLLET) = 0)
    ∧ (((fun n => if n = 0 then Errno.eexist else Errno.ok) 0 = Errno.eintr
          ∨ (fun n => if n = 0 then Errno.eexist else Errno.ok) 0 = Errno.other) →
        (reconcileWatcher ⟨5, 0, UV__POLLIN, 0⟩
            (fun n => if n = 0 then Errno.eexist else Errno.ok)).aborted = true
        ∧ (reconcileWatcher ⟨5, 0, UV__POLLIN, 0⟩
            (fun n => if n = 0 then Errno.eexist else Errno.ok)).calls.map CtlCall.op
          = [CtlOp.ctl_add])
    ∧ ((fun n => if n = 0 then Errno.eexist else Errno.ok) 0 = Errno.eexist →
        (((⟨5, 0, UV__POLLIN, 0⟩ : Watcher).levents &&& UV__POLLET = 0 →
            (reconcileWatcher ⟨5, 0, UV__POLLIN, 0⟩
                (fun n => if n = 0 then Errno.eexist else Errno.ok)).calls.map CtlCall.op
              = [CtlOp.ctl_add, CtlOp.ctl_mod]
            ∧ ((reconcileWatcher ⟨5, 0, UV__POLLIN, 0⟩
                  (fun n => if n = 0 then Errno.eexist else Errno.ok)).aborted = false
                ↔ (fun n => if n = 0 then Errno.eexist else Errno.ok) 1 = Errno.ok))
         ∧ ((⟨5, 0, UV__POLLIN, 0⟩ : Watcher).levents &&& UV__POLLET ≠ 0 →
            ((fun n => if n = 0 then Errno.eexist else Errno.ok) 1 = Errno.ok →
                (reconcileWatcher ⟨5, 0, UV__POLLIN, 0⟩
                    (fun n => if n = 0 then Errno.eexist else Errno.ok)).calls.map CtlCall.op
                  = [CtlOp.ctl_add, CtlOp.ctl_del, CtlOp.ctl_add]
                ∧ ((reconcileWatcher ⟨5, 0, UV__POLLIN, 0⟩
                      (fun n => if n = 0 then Errno.eexist else Errno.ok)).aborted = false
                    ↔ (fun n => if n = 0 then Errno.eexist else Errno.ok) 2 = Errno.ok))
            ∧ ((fun n => if n = 0 then Errno.eexist else Errno.ok) 1 ≠ Errno.ok →
                (reconcileWatcher ⟨5, 0, UV__POLLIN, 0⟩
                    (fun n => if n = 0 then Errno.eexist else Errno.ok)).aborted = true)))) := by
  refine ⟨by decide, ?_⟩
  exact reconcile_eexist_recovery ⟨5, 0, UV__POLLIN, 0⟩
    (fun n => if n = 0 then Errno.eexist else Errno.ok) (by decide)

/-- C9.  On every return from the wait syscall the cached time is updated
before any other processing — the trace records exactly one timeline entry
per wait call — and, the per-call clock advances being non-negative
(monotonic clock), the cached time is non-decreasing along the whole call,
with the final cached time the last recorded update. -/
theorem pollLoop_time_monotone (base : Nat) : ∀ (steps : List WaitStep)
    (table : List (Nat × Watcher)) (time : Nat) (timeout : Int),
    List.Chain (fun a b => a ≤ b) time (pollLoop base steps table time timeout).timeline
    ∧ (pollLoop base steps table time timeout).timeline.length
        = (pollLoop base steps table time timeout).waitCalls.length
    ∧ (pollLoop base steps table time timeout).time
        = (pollLoop base steps table time timeout).timeline.getLastD time := by
  intro steps
  induction steps with
  | nil =>
    intro table time timeout
    simp [pollLoop]
  | cons s rest ih =>
    intro table time timeout
    cases s with
    | timeoutRet dt =>
      simp [pollLoop, List.chain_cons]
    | othererr dt =>
      simp [pollLoop, List.chain_cons]
    | eintr dt =>
      by_cases h1 : timeout = -1
      · rcases ih table (time + dt) timeout with ⟨ha, hb, hc⟩
        refine ⟨?_, ?_, ?_⟩
        · simp only [pollLoop, if_pos h1]
          rw [List.chain_cons]
          exact ⟨Nat.le_add_right _ _, ha⟩
        · simp only [pollLoop, if_pos h1, List.length_cons]
          rw [hb]
        · simp only [pollLoop, if_pos h1, List.getLastD_cons]
          exact hc
      · by_cases h2 : timeout = 0
        · simp [pollLoop, h1, h2, List.chain_cons]
        · by_cases h3 : ((time + dt - base : Nat) : Int) ≥ timeout
          · simp [pollLoop, h1, h2, h3, List.chain_cons]
          · rcases ih table (time + dt) (timeout - ((time + dt - base : Nat) : Int))
              with ⟨ha, hb, hc⟩
            refine ⟨?_, ?_, ?_⟩
            · simp only [pollLoop, if_neg h1, if_neg h2, if_neg h3]
              rw [List.chain_cons]
              exact ⟨Nat.le_add_right _ _, ha⟩
            · simp only [pollLoop, if_neg h1, if_neg h2, if_neg h3, List.length_cons]
              rw [hb]
            · simp only [pollLoop, if_neg h1, if_neg h2, if_neg h3, List.getLastD_cons]
              exact hc
    | ready evs dt =>
      by_cases hn : (processEvents table evs).nevents ≠ 0
      · simp [pollLoop, hn, List.chain_cons]
      · by_cases h2 : timeout = 0
        · simp [pollLoop, hn, h2, List.chain_cons]
        · by_cases h1 : timeout = -1
          · rcases ih (processEvents table evs).table (time + dt) timeout with ⟨ha, hb, hc⟩
            refine ⟨?_, ?_, ?_⟩
            · simp only [pollLoop, if_neg hn, if_neg h2, if_pos h1]
              rw [List.chain_cons]
              exact ⟨Nat.le_add_right _ _, ha⟩
            · simp only [pollLoop, if_neg hn, if_neg h2, if_pos h1, List.length_cons]
              rw [hb]
            · simp only [pollLoop, if_neg hn, if_neg h2, if_pos h1, List.getLastD_cons]
              exact hc
          · by_cases h3 : ((time + dt - base : Nat) : Int) ≥ timeout
            · simp [pollLoop, hn, h2, h1, h3, List.chain_cons]
            · rcases ih (processEvents table evs).table (time + dt)
                  (timeout - ((time + dt - base : Nat) : Int)) with ⟨ha, hb, hc⟩
              refine ⟨?_, ?_, ?_⟩
              · simp only [pollLoop, if_neg hn, if_neg h2, if_neg h1, if_neg h3]
                rw [List.chain_cons]
                exact ⟨Nat.le_add_right _ _, ha⟩
              · simp only [pollLoop, if_neg hn, if_neg h2, if_neg h1, if_neg h3,
                  List.length_cons]
                rw [hb]
              · simp only [pollLoop, if_neg hn, if_neg h2, if_neg h1, if_neg h3,
                  List.getLastD_cons]
                exact hc

/-- C4 fails on the code: `uv__io_poll` with timeout 10 interrupted by two
signals after 4 ms each (both interruptions legal: 4 < 10 on the first
wait, 4 < 6 on the second, as the recorded `waitCalls` show) returns "due
to timeout" after only 8 ms total, because the second pass of
`update_timeout` subtracts the *cumulative* elapsed time (8, measured from
the fixed `base`) from the *already reduced* remaining timeout (6), so
elapsed time since entry is deducted twice. -/
theorem pollLoop_eintr_early_timeout :
    (pollLoop 0 [WaitStep.eintr 4, WaitStep.eintr 4] [] 0 10).exit = PollExit.returned
    ∧ (pollLoop 0 [WaitStep.eintr 4, WaitStep.eintr 4] [] 0 10).time = 8
    ∧ (pollLoop 0 [WaitStep.eintr 4, WaitStep.eintr 4] [] 0 10).timeline = [4, 8]
    ∧ (pollLoop 0 [WaitStep.eintr 4, WaitStep.eintr 4] [] 0 10).waitCalls = [(10, 4), (6, 4)]
    ∧ ((8 : Int) < 10) := by
  refine ⟨by decide, by decide, by decide, by decide, by decide⟩

end Libuv
